import Mathlib

/-!
Model of the per-field logic emitted by the C# field-generation strategies
(`csharp_primitive_field.cc`, `csharp_repeated_primitive_field.cc`,
`csharp_repeated_enum_field.cc`, `csharp_message_field.cc`,
`csharp_map_field.cc`, `csharp_wrapper_field.cc`).  Every definition is a
shallow embedding of the C# statements those generators print, specialised
to representative element kinds where the generated code is generic over
the field's scalar type.  Byte streams are `List Nat` (each byte `< 256`),
and the varint-encoded unsigned scalar kinds are modelled by `Nat`.

The runtime codec library (`CodedInputStream` / `CodedOutputStream`) and
the per-message driver are not among the repository sources given here;
their primitives are modelled from the spec and marked as such in their
doc comments ("minimal-length varint encoding", "length-delimited payload
length is itself a varint immediately preceding the payload", the nested
read-limit discipline, and the parse dispatcher's packed-vs-unpacked
choice).
-/

/-- Modelled from the spec: minimal-length base-128 varint encoding used by
the runtime codec's `WriteLength` / `WriteUInt32` / `WriteEnum` (spec 6:
"minimal-length varint encoding").  The head of the list is the
least-significant 7-bit group; every byte except the last has bit 7 set.
`fuel` only bounds the recursion depth; `fuel = n` always suffices and the
wrapper below instantiates it that way. -/
def varintEncodeAux : Nat → Nat → List Nat
  | 0, n => [n % 128]
  | fuel + 1, n => if n < 128 then [n] else (n % 128 + 128) :: varintEncodeAux fuel (n / 128)

/-- Minimal varint encoding of `n` (modelled from the spec). -/
def varintEncode (n : Nat) : List Nat := varintEncodeAux n n

/-- Modelled from the spec: the runtime codec's varint reader (`ReadLength`
/ `ReadUInt32` / `ReadEnum` / `ReadTag`): consume base-128 groups while the
continuation bit (128) is set, returning the decoded value and the rest of
the stream; an exhausted stream is a decode error. -/
def readVarint : List Nat → Option (Nat × List Nat)
  | [] => none
  | b :: rest =>
    if b < 128 then some (b, rest)
    else
      match readVarint rest with
      | none => none
      | some (n, r) => some (b % 128 + 128 * n, r)

/-- Modelled from the spec: `pb::CodedOutputStream.ComputeLengthSize`, the
exact byte count of the varint length prefix (the codec's size primitives
are assumed exact, spec 6). -/
def computeLengthSize (n : Nat) : Nat := (varintEncode n).length

/-- Modelled from the spec: `pb::CodedOutputStream.ComputeUInt32Size` for a
varint scalar: the exact length of its varint encoding. -/
def computeUInt32Size (v : Nat) : Nat := (varintEncode v).length

/-- Modelled from the spec: the codec's `WriteString` payload — a varint
length prefix immediately followed by the raw bytes (spec 6). -/
def writeString (s : List Nat) : List Nat := varintEncode s.length ++ s

/-- Modelled from the spec: `pb::CodedOutputStream.ComputeStringSize`: the
length-prefix size plus the byte count. -/
def computeStringSize (s : List Nat) : Nat := computeLengthSize s.length + s.length

/-- One repeated primitive field as the generated fragments see it:
the precomputed `$tag_bytes$` / `$tag_size$` context entries, the
descriptor predicates `is_packable()` / `is_packed()` consulted by the
fragments, `GetFixedSize` (`none` models the `-1` variable-width answer),
and the element codec write/size primitives
(`output.Write$capitalized_type_name$` /
`pb::CodedOutputStream.Compute$capitalized_type_name$Size`). -/
structure RepField where
  tagBytes : List Nat
  tagSize : Nat
  packable : Bool
  packed : Bool
  fixedSize : Option Nat
  elemWrite : Nat → List Nat
  elemSize : Nat → Nat

/-- The `packedSize` accumulation shared by both fragments of
`csharp_repeated_primitive_field.cc`: `GetFixedSize == -1` sums the
per-element computed sizes, otherwise it is `fixedSize * Count`. -/
def RepField.packedTotal (f : RepField) (xs : List Nat) : Nat :=
  match f.fixedSize with
  | some k => k * xs.length
  | none => (xs.map f.elemSize).sum

/-- `RepeatedPrimitiveFieldGenerator::GenerateSerializationCode`
(lines 98-137): the packed branch is chosen by `descriptor_->is_packable()`;
it computes `packedSize`, and when positive writes the raw tag bytes, the
varint length, then each element; the non-packable branch writes one
tag + element pair per entry. -/
def RepField.serializeRep (f : RepField) (xs : List Nat) : List Nat :=
  if f.packable then
    let packedSize := f.packedTotal xs
    if 0 < packedSize then
      f.tagBytes ++ varintEncode packedSize ++ xs.flatMap f.elemWrite
    else []
  else
    xs.flatMap (fun v => f.tagBytes ++ f.elemWrite v)

/-- `RepeatedPrimitiveFieldGenerator::GenerateSerializedSizeCode`
(lines 139-174): the packed branch is chosen by `descriptor_->is_packed()`;
it adds `tag_size + packedSize + ComputeLengthSize(packedSize)` when
`packedSize` is positive, while the non-packed branch adds
`tag_size + Compute...Size(element)` per entry. -/
def RepField.sizeRep (f : RepField) (xs : List Nat) : Nat :=
  if f.packed then
    let packedSize := f.packedTotal xs
    if 0 < packedSize then
      f.tagSize + packedSize + computeLengthSize packedSize
    else 0
  else
    (xs.map (fun v => f.tagSize + f.elemSize v)).sum

/-- The repeated int32 field of spec scenario 3 (field number 3, varint
elements) but with `packed = false` declared in the schema: `is_packable()`
still holds while `is_packed()` does not. -/
def uint32RepeatedField3 : RepField :=
  { tagBytes := [24], tagSize := 1, packable := true, packed := false,
    fixedSize := none, elemWrite := varintEncode, elemSize := computeUInt32Size }

/-- The `while (!input.ReachedLimit) lvalue.Add(input.Read...)` loop of the
packed parsing branch, run inside the pushed limit: the region is the slice
of the stream the limit admits, and `ReachedLimit` holds exactly when it is
exhausted.  `fuel` bounds the iteration count (each read consumes at least
one byte, so `fuel = region.length` suffices). -/
def packedDecodeAux : Nat → List Nat → List Nat → Option (List Nat)
  | _, acc, [] => some acc
  | 0, _, _ :: _ => none
  | fuel + 1, acc, b :: rest =>
    match readVarint (b :: rest) with
    | none => none
    | some (v, r2) => packedDecodeAux fuel (acc ++ [v]) r2

/-- `RepeatedPrimitiveFieldGenerator::GenerateParsingCode` (lines 77-96):
when `descriptor_->is_packable() && !forceNonPacked` it reads a length,
and when positive pushes that limit, appends elements until the limit is
reached, and pops the limit (modelled by splitting the stream at the read
length); otherwise it appends a single element read. -/
def repeatedPrimitiveParse (packable forceNonPacked : Bool) (lvalue input : List Nat) :
    Option (List Nat × List Nat) :=
  if packable && !forceNonPacked then
    match readVarint input with
    | none => none
    | some (len, rest) =>
      if 0 < len then
        if len ≤ rest.length then
          match packedDecodeAux len lvalue (rest.take len) with
          | none => none
          | some acc => some (acc, rest.drop len)
        else none
      else some (lvalue, rest)
  else
    match readVarint input with
    | none => none
    | some (v, rest) => some (lvalue ++ [v], rest)

/-- `RepeatedEnumFieldGenerator::GenerateParsingCode` (lines 77-96): the
same shape as the repeated-primitive fragment except that the packed branch
is gated on `descriptor_->is_packed() && !forceNonPacked` (enum values are
varints on the wire, read by `input.ReadEnum`). -/
def repeatedEnumParse (packed forceNonPacked : Bool) (lvalue input : List Nat) :
    Option (List Nat × List Nat) :=
  if packed && !forceNonPacked then
    match readVarint input with
    | none => none
    | some (len, rest) =>
      if 0 < len then
        if len ≤ rest.length then
          match packedDecodeAux len lvalue (rest.take len) with
          | none => none
          | some acc => some (acc, rest.drop len)
        else none
      else some (lvalue, rest)
  else
    match readVarint input with
    | none => none
    | some (v, rest) => some (lvalue ++ [v], rest)

/-- Modelled from the spec: the per-message parse dispatcher (the external
driver, spec 4.6) "chooses packed-decode only when the matched tag's wire
type is length-delimited and the field is packable", i.e. it invokes the
repeated-primitive fragment with `forceNonPacked := !lengthDelimited`. -/
def dispatchRepeatedPrimitive (packable lenDelim : Bool) (lvalue input : List Nat) :
    Option (List Nat × List Nat) :=
  repeatedPrimitiveParse packable (!lenDelim) lvalue input

/-- Modelled from the spec: the same dispatcher driving the repeated-enum
fragment with `forceNonPacked := !lengthDelimited`. -/
def dispatchRepeatedEnum (packed lenDelim : Bool) (lvalue input : List Nat) :
    Option (List Nat × List Nat) :=
  repeatedEnumParse packed (!lenDelim) lvalue input

/-- `pb::ProtoPreconditions.CheckNotNull` as invoked by the generated
string/bytes property setter: a null argument is an error, otherwise the
value passes through. -/
def checkNotNull (v : Option α) : Except String α :=
  match v with
  | none => Except.error "value"
  | some a => Except.ok a

/-- The generated setter of a singular non-oneof string/bytes property
(`PrimitiveFieldGenerator::GenerateMembers`, reference branch):
`name_ = pb::ProtoPreconditions.CheckNotNull(value, "value")`. -/
def stringFieldSet (v : Option (List Nat)) : Except String (List Nat) :=
  checkNotNull v

/-- `PrimitiveFieldGenerator::GenerateSerializationCode` (lines 117-136)
specialised to a non-oneof string/bytes field, whose presence check suffix
is `".Length != 0"` (constructor, lines 51-62): a non-empty value emits the
raw tag bytes then the length-prefixed payload, an empty value emits
nothing. -/
def stringFieldSerialize (tagBytes : List Nat) (s : List Nat) : List Nat :=
  if s.length ≠ 0 then tagBytes ++ writeString s else []

/-- `PrimitiveFieldGenerator::GenerateSerializedSizeCode` (lines 138-167)
for the same string/bytes field (`GetFixedSize == -1`): a non-empty value
adds `tag_size + ComputeStringSize(value)`, an empty value adds nothing. -/
def stringFieldSize (tagSize : Nat) (s : List Nat) : Nat :=
  if s.length ≠ 0 then tagSize + computeStringSize s else 0

/-- `PrimitiveFieldGenerator::GenerateSerializationCode` specialised to a
varint value-kind scalar (uint32/int32/enum); the presence check suffix for
value kinds is produced by the field-generator base, which is not among the
sources — modelled from the spec's omit-if-default policy (spec 4.2):
"serialize/size unconditionally re-test against the zero/default value". -/
def uint32FieldSerialize (tagBytes : List Nat) (v : Nat) : List Nat :=
  if v ≠ 0 then tagBytes ++ varintEncode v else []

/-- `PrimitiveFieldGenerator::GenerateSerializedSizeCode` for the same
varint scalar under the same modelled presence test. -/
def uint32FieldSize (tagSize : Nat) (v : Nat) : Nat :=
  if v ≠ 0 then tagSize + computeUInt32Size v else 0

/-- One map field as `MapFieldGenerator` sees it, specialised to a string
key (field 1) and a varint value (field 2): the entry tag context entries
plus the key/value sub-strategies' precomputed tags. -/
structure MapFieldModel where
  tagBytes : List Nat
  tagSize : Nat
  keyTagBytes : List Nat
  keyTagSize : Nat
  valTagBytes : List Nat
  valTagSize : Nat

/-- The `messageSize` accumulator of `MapFieldGenerator`'s serialize/size
loops: the key and value sub-generators' `GenerateSerializedSizeCode`
applied to `entry.Key` and `entry.Value`. -/
def MapFieldModel.entrySize (f : MapFieldModel) (k : List Nat) (v : Nat) : Nat :=
  stringFieldSize f.keyTagSize k + uint32FieldSize f.valTagSize v

/-- The bytes the key and value sub-generators' `GenerateSerializationCode`
emit for one entry. -/
def MapFieldModel.entryPayload (f : MapFieldModel) (k : List Nat) (v : Nat) : List Nat :=
  stringFieldSerialize f.keyTagBytes k ++ uint32FieldSerialize f.valTagBytes v

/-- One iteration of `MapFieldGenerator::GenerateSerializationCode`
(lines 142-168): compute `messageSize` by delegating to the sub-strategies'
size fragments, write the entry tag, the varint length, then the key and
value sub-fields. -/
def MapFieldModel.serEntry (f : MapFieldModel) (k : List Nat) (v : Nat) : List Nat :=
  f.tagBytes ++ varintEncode (f.entrySize k v) ++ f.entryPayload k v

/-- The `foreach (var entry in ...)` serialize loop over the map's entry
list. -/
def MapFieldModel.serializeEntries (f : MapFieldModel) : List (List Nat × Nat) → List Nat
  | [] => []
  | e :: es => f.serEntry e.1 e.2 ++ f.serializeEntries es

/-- `MapFieldGenerator::GenerateSerializedSizeCode` (lines 170-194): per
entry add `tag_size + ComputeLengthSize(messageSize) + messageSize`. -/
def MapFieldModel.sizeEntries (f : MapFieldModel) : List (List Nat × Nat) → Nat
  | [] => 0
  | e :: es =>
    f.tagSize + computeLengthSize (f.entrySize e.1 e.2) + f.entrySize e.1 e.2
      + f.sizeEntries es

/-- The `map<string,int32>` field number 4 of spec scenario 4: entry tag
`(4 <<< 3) ||| 2 = 34`, key tag `10`, value tag `16`, all one byte. -/
def mapField4 : MapFieldModel :=
  { tagBytes := [34], tagSize := 1, keyTagBytes := [10], keyTagSize := 1,
    valTagBytes := [16], valTagSize := 1 }

/-- `WrapperFieldGenerator::GenerateMergingCode` (lines 84-92): the wrapper
slot is a nullable value; if the source is present it overwrites the target
exactly when the target is absent or the source's inner value differs from
the wrapped default. -/
def wrapperMerge [DecidableEq V] (dflt : V) (target source : Option V) : Option V :=
  match source with
  | none => target
  | some v => if target = none ∨ v ≠ dflt then some v else target

/-- `WrapperFieldGenerator::GenerateParsingCode` (lines 94-102): read the
wrapped inner value, then install it exactly when the target is null or the
value differs from the wrapped default. -/
def wrapperParse [DecidableEq V] (dflt : V) (target : Option V) (v : V) : Option V :=
  if target = none ∨ v ≠ dflt then some v else target

/-- A oneof group's shared storage as every oneof member strategy sees it:
the shared slot plus the discriminant (`none` models `OneofCase.None`,
`some m` the case naming member `m`). -/
structure OneofState (μ : Type) (σ : Type) where
  slot : σ
  ocase : Option μ
  deriving DecidableEq

/-- The generated setter of a value-kind primitive oneof member
(`PrimitiveOneofFieldGenerator::GenerateMembers`, lines 207-229): store the
value in the shared slot and mark this member active unconditionally. -/
def oneofSetPrim (m : μ) (v : σ) (_st : OneofState μ σ) : OneofState μ σ :=
  { slot := v, ocase := some m }

/-- The generated getter of a primitive oneof member: expose the shared
slot only when the discriminant names this member, else the member's
default. -/
def oneofGetPrim [DecidableEq μ] (dflt : μ → σ) (m : μ) (st : OneofState μ σ) : σ :=
  if st.ocase = some m then st.slot else dflt m

/-- The generated setter of a message-typed or wrapper-typed oneof member
(`MessageOneofFieldGenerator::GenerateMembers` lines 161-173,
`WrapperOneofFieldGenerator::GenerateMembers` lines 166-178): store the
value and set the discriminant to `None` when the value is null, else to
this member. -/
def oneofSetRef (m : μ) (v : Option α) (_st : OneofState μ (Option α)) :
    OneofState μ (Option α) :=
  { slot := v, ocase := if v.isNone then none else some m }

/-- `WrapperOneofFieldGenerator::GenerateParsingCode` (lines 184-189):
assign the freshly read wrapped value to the property, whose setter stores
it in the shared slot and, the value being non-null, marks this member
active. -/
def wrapperOneofParse (m : μ) (st : OneofState μ (Option V)) (v : V) :
    OneofState μ (Option V) :=
  oneofSetRef m (some v) st

/-- The representative nested message type used where the generated code is
generic over `$type_name$`: a message whose single field is a non-packed
repeated varint scalar with tag byte `8` (field 1, wire type 0), so that
merge accumulation is observable. -/
structure PMsg where
  xs : List Nat
  deriving DecidableEq

/-- `new $type_name$()`: the default-constructed message. -/
def PMsg.new : PMsg := ⟨[]⟩

/-- The generated `MergeFrom(other)` of the representative message: its one
field is repeated, so `RepeatedPrimitiveFieldGenerator::GenerateMergingCode`
appends the other list (`name_.Add(other.name_)`). -/
def PMsg.mergeMsg (a b : PMsg) : PMsg := ⟨a.xs ++ b.xs⟩

/-- The representative message's `MergeFrom(input)` loop over one nested
region.  The tag-switch loop itself is emitted by the external driver
(modelled from the spec: read tags until the region's limit, dispatch on
the precomputed tag, skip unknown tags by wire type); the `tag = 8` arm is
`RepeatedPrimitiveFieldGenerator::GenerateParsingCode`'s non-packed append.
`fuel` bounds the iteration count (each iteration consumes at least the tag
byte, so `fuel = region.length` suffices). -/
def mergeFromWireAux : Nat → PMsg → List Nat → Option PMsg
  | _, m, [] => some m
  | 0, _, _ :: _ => none
  | fuel + 1, m, b :: rest =>
    match readVarint (b :: rest) with
    | none => none
    | some (tag, r) =>
      if tag = 0 then none
      else if tag = 8 then
        match readVarint r with
        | none => none
        | some (v, r2) => mergeFromWireAux fuel ⟨m.xs ++ [v]⟩ r2
      else
        match tag % 8 with
        | 0 =>
          match readVarint r with
          | none => none
          | some (_, r2) => mergeFromWireAux fuel m r2
        | 1 => if 8 ≤ r.length then mergeFromWireAux fuel m (r.drop 8) else none
        | 2 =>
          match readVarint r with
          | none => none
          | some (len, r2) =>
            if len ≤ r2.length then mergeFromWireAux fuel m (r2.drop len) else none
        | 5 => if 4 ≤ r.length then mergeFromWireAux fuel m (r.drop 4) else none
        | _ => none

/-- Merge one bounded wire region into the representative message. -/
def PMsg.mergeFromWire (m : PMsg) (region : List Nat) : Option PMsg :=
  mergeFromWireAux region.length m region

/-- `MessageFieldGenerator::GenerateParsingCode` (lines 91-101): materialize
the target if null, `BeginReadNested` (read the varint length and push it
as the new read limit — modelled by bounding the region to that many bytes,
a short stream being a codec error), merge the region into the instance,
`EndReadNested` (pop back to the outer limit — modelled by resuming after
the region). -/
def messageFieldParse (target : Option PMsg) (input : List Nat) :
    Option (Option PMsg × List Nat) :=
  match readVarint input with
  | none => none
  | some (len, rest) =>
    if len ≤ rest.length then
      match PMsg.mergeFromWire (target.getD PMsg.new) (rest.take len) with
      | none => none
      | some m1 => some (some m1, rest.drop len)
    else none

/-- `MessageOneofFieldGenerator::GenerateParsingCode` (lines 183-196):
build a fresh `subBuilder`; if the discriminant already names this member,
merge the currently exposed value into it (the getter exposes the shared
slot exactly then); decode the nested region into `subBuilder` under the
pushed limit; finally assign `subBuilder` through the property setter,
which stores it and, being non-null, marks this member active. -/
def messageOneofParse [DecidableEq μ] (m : μ) (st : OneofState μ (Option PMsg))
    (input : List Nat) : Option (OneofState μ (Option PMsg) × List Nat) :=
  let subBuilder : PMsg :=
    if st.ocase = some m then PMsg.mergeMsg PMsg.new (st.slot.getD PMsg.new) else PMsg.new
  match readVarint input with
  | none => none
  | some (len, rest) =>
    if len ≤ rest.length then
      match PMsg.mergeFromWire subBuilder (rest.take len) with
      | none => none
      | some m1 => some (oneofSetRef m (some m1) st, rest.drop len)
    else none

/-! ### Library lemmas about the modelled codec -/

theorem varintEncodeAux_irrel :
    ∀ (f g n : Nat), n ≤ f → n ≤ g → varintEncodeAux f n = varintEncodeAux g n := by
  intro f
  induction f with
  | zero =>
    intro g n hf hg
    have hn : n = 0 := Nat.le_zero.mp hf
    subst hn
    cases g with
    | zero => rfl
    | succ k => simp [varintEncodeAux]
  | succ f ih =>
    intro g n hf hg
    cases g with
    | zero =>
      have hn : n = 0 := Nat.le_zero.mp hg
      subst hn
      simp [varintEncodeAux]
    | succ k =>
      by_cases h : n < 128
      · simp [varintEncodeAux, h]
      · have hdiv : n / 128 < n := Nat.div_lt_self (by omega) (by omega)
        simp only [varintEncodeAux, if_neg h]
        rw [ih k (n / 128) (by omega) (by omega)]

theorem varintEncode_lt {n : Nat} (h : n < 128) : varintEncode n = [n] := by
  cases n with
  | zero => rfl
  | succ m => simp [varintEncode, varintEncodeAux, h]

theorem varintEncode_ge {n : Nat} (h : 128 ≤ n) :
    varintEncode n = (n % 128 + 128) :: varintEncode (n / 128) := by
  obtain ⟨f, rfl⟩ : ∃ f, n = f + 1 := ⟨n - 1, by omega⟩
  have hdiv : (f + 1) / 128 < f + 1 := Nat.div_lt_self (by omega) (by omega)
  simp only [varintEncode, varintEncodeAux, if_neg (by omega : ¬ f + 1 < 128)]
  rw [varintEncodeAux_irrel f ((f + 1) / 128) ((f + 1) / 128) (by omega) (le_refl _)]

theorem varintEncode_ne_nil (n : Nat) : varintEncode n ≠ [] := by
  by_cases h : n < 128
  · rw [varintEncode_lt h]; simp
  · rw [varintEncode_ge (by omega)]; simp

theorem readVarint_encode :
    ∀ (n : Nat) (rest : List Nat), readVarint (varintEncode n ++ rest) = some (n, rest) := by
  intro n
  induction n using Nat.strong_induction_on with
  | _ n ih =>
    intro rest
    by_cases h : n < 128
    · rw [varintEncode_lt h]
      simp [readVarint, h]
    · have h128 : 128 ≤ n := by omega
      have hdiv : n / 128 < n := Nat.div_lt_self (by omega) (by omega)
      rw [varintEncode_ge h128]
      simp only [List.cons_append, readVarint, if_neg (by omega : ¬ n % 128 + 128 < 128),
        List.append_eq]
      rw [ih (n / 128) hdiv rest]
      simp
      omega

theorem stringFieldSerialize_length (tagBytes s : List Nat) :
    (stringFieldSerialize tagBytes s).length = stringFieldSize tagBytes.length s := by
  by_cases h : s.length ≠ 0
  · simp [stringFieldSerialize, stringFieldSize, h, writeString, computeStringSize,
      computeLengthSize]
  · simp [stringFieldSerialize, stringFieldSize, h]

theorem uint32FieldSerialize_length (tagBytes : List Nat) (v : Nat) :
    (uint32FieldSerialize tagBytes v).length = uint32FieldSize tagBytes.length v := by
  by_cases h : v ≠ 0 <;>
    simp [uint32FieldSerialize, uint32FieldSize, h, computeUInt32Size]

theorem stringFieldSerialize_eq_nil_iff (tagBytes s : List Nat) :
    stringFieldSerialize tagBytes s = [] ↔ s = [] := by
  by_cases h : s.length ≠ 0
  · simp [stringFieldSerialize, h, writeString]
    constructor
    · rintro ⟨-, -, hs⟩
      exact hs
    · intro hs
      subst hs
      simp at h
  · simp at h
    simp [stringFieldSerialize, h]

theorem uint32FieldSerialize_eq_nil_iff (tagBytes : List Nat) (v : Nat) :
    uint32FieldSerialize tagBytes v = [] ↔ v = 0 := by
  by_cases h : v ≠ 0
  · simp [uint32FieldSerialize, h]
    intro _
    exact varintEncode_ne_nil v
  · simp at h
    simp [uint32FieldSerialize, h]

/-! ### Claim theorems -/

/-- C1: the size-computation fragment of a repeated primitive field does
NOT stay in lock-step with the serialization fragment: for a packable field
declared `packed = false` the serializer (gated on `is_packable()`) emits
the packed form — here 5 bytes for the values `[1, 2, 3]` — while the size
fragment (gated on `is_packed()`) computes the unpacked total of 6 bytes,
so `len(serialize(v)) ≠ size(v)`. -/
theorem repeatedPrimitive_lockstep_violation :
    (uint32RepeatedField3.serializeRep [1, 2, 3]).length = 5 ∧
    uint32RepeatedField3.sizeRep [1, 2, 3] = 6 ∧
    (uint32RepeatedField3.serializeRep [1, 2, 3]).length ≠
      uint32RepeatedField3.sizeRep [1, 2, 3] := by
  refine ⟨by decide, by decide, by decide⟩

/-- C2: the repeated-enum parsing fragment gates packed decoding on
`is_packed()` where the repeated-primitive fragment uses `is_packable()`:
for an enum field declared `packed = false`, a length-delimited wire
occurrence holding the packed run `[2, 3]` (bytes `02 02 03`) is misparsed
by the enum fragment — it reads the length byte as a single value, stores
`[2]` and leaves the payload unconsumed — while the primitive fragment on
the same bytes decodes the full run `[2, 3]`. -/
theorem repeatedEnum_packed_parse_bug :
    dispatchRepeatedEnum false true [] [2, 2, 3] = some ([2], [2, 3]) ∧
    dispatchRepeatedPrimitive true true [] [2, 2, 3] = some ([2, 3], []) ∧
    dispatchRepeatedEnum false true [] [2, 2, 3] ≠
      dispatchRepeatedPrimitive true true [] [2, 2, 3] := by
  refine ⟨by decide, by decide, by decide⟩

/-- C3 counterexample: for the `map<string,int32>` field number 4 and the
entry `("", 1)` the emitted occurrence is `22 02 10 01`: its payload holds
only the value sub-field, because the key sub-generator's presence check
(`entry.Key.Length != 0`) suppresses the key sub-field for the default
key — the key sub-field is NOT always present. -/
theorem mapEntry_default_key_omitted :
    mapField4.serEntry [] 1 = [34, 2, 16, 1] ∧
    stringFieldSerialize mapField4.keyTagBytes [] = [] ∧
    mapField4.entryPayload [] 1 = uint32FieldSerialize mapField4.valTagBytes 1 := by
  refine ⟨by decide, by decide, by decide⟩

/-- C3 (amended): serialization emits one independent length-delimited
occurrence per map key whose payload contains the key sub-field when the
key is non-default and the value sub-field when the value is non-default;
the entry's length prefix is computed by delegating to the key and value
sub-strategies' own size operations and equals the payload's exact byte
count, so the whole map field stays in serialize/size lock-step. -/
theorem mapField_serialize_spec (f : MapFieldModel)
    (hk : f.keyTagSize = f.keyTagBytes.length)
    (hv : f.valTagSize = f.valTagBytes.length)
    (ht : f.tagSize = f.tagBytes.length) :
    (∀ entries, (f.serializeEntries entries).length = f.sizeEntries entries) ∧
    (∀ k v, f.serEntry k v =
      f.tagBytes ++ varintEncode ((f.entryPayload k v).length) ++ f.entryPayload k v) ∧
    (∀ k v, (f.entryPayload k v).length = f.entrySize k v) ∧
    (∀ k, stringFieldSerialize f.keyTagBytes k = [] ↔ k = []) ∧
    (∀ v, uint32FieldSerialize f.valTagBytes v = [] ↔ v = 0) := by
  have h3 : ∀ k v, (f.entryPayload k v).length = f.entrySize k v := by
    intro k v
    simp [MapFieldModel.entryPayload, MapFieldModel.entrySize,
      stringFieldSerialize_length, uint32FieldSerialize_length, hk, hv]
  refine ⟨?_, ?_, h3, fun k => stringFieldSerialize_eq_nil_iff _ k,
    fun v => uint32FieldSerialize_eq_nil_iff _ v⟩
  · intro entries
    induction entries with
    | nil => rfl
    | cons e es ih =>
      simp [MapFieldModel.serializeEntries, MapFieldModel.sizeEntries, MapFieldModel.serEntry,
        ih, h3, ht, computeLengthSize]
      omega
  · intro k v
    rw [h3 k v]
    rfl

/-- C3 witness: the amended statement applied to the concrete
`map<string,int32>` field number 4 with the entry `("a", 1)` of spec
scenario 4 (`22 05 0A 01 61 10 01`). -/
theorem mapField_serialize_spec_witness :
    (mapField4.serializeEntries [([97], 1)]).length = mapField4.sizeEntries [([97], 1)] ∧
    mapField4.serEntry [97] 1 = [34, 5, 10, 1, 97, 16, 1] :=
  ⟨(mapField_serialize_spec mapField4 rfl rfl rfl).1 [([97], 1)], by decide⟩

/-- C4: wrapper merge policy — an absent source leaves the target
unchanged; a source with a non-default inner value overwrites
unconditionally; a source carrying the default inner value overwrites
exactly when the target is currently absent, preserving "never set"
versus "explicitly set to default". -/
theorem wrapperMerge_policy (V : Type) [DecidableEq V] (dflt : V) (t : Option V) (v : V) :
    wrapperMerge dflt t none = t ∧
    (v ≠ dflt → wrapperMerge dflt t (some v) = some v) ∧
    wrapperMerge dflt none (some dflt) = some dflt ∧
    (t ≠ none → wrapperMerge dflt t (some dflt) = t) := by
  refine ⟨rfl, ?_, ?_, ?_⟩
  · intro hv
    simp [wrapperMerge, hv]
  · simp [wrapperMerge]
  · intro ht
    simp [wrapperMerge, ht]

/-- C4 witness: the merge policy at concrete inputs (`V = Nat`, default
0, target explicitly holding 1, source values 2 and 0). -/
theorem wrapperMerge_policy_witness :
    wrapperMerge 0 (some 1) none = some 1 ∧
    wrapperMerge 0 (some 1) (some 2) = some 2 ∧
    wrapperMerge 0 none (some 0) = some 0 ∧
    wrapperMerge 0 (some 1) (some 0) = some 1 :=
  ⟨(wrapperMerge_policy Nat 0 (some 1) 2).1,
   (wrapperMerge_policy Nat 0 (some 1) 2).2.1 (by decide),
   (wrapperMerge_policy Nat 0 (some 1) 2).2.2.1,
   (wrapperMerge_policy Nat 0 (some 1) 2).2.2.2 (by decide)⟩

/-- C5: wrapper parsing applies exactly the merge rule of C4 with the
decoded inner value as a present source, using "target currently null" as
the absence test; the oneof variant always installs into the shared slot
and always sets the discriminant to this member. -/
theorem wrapperParse_policy (V : Type) [DecidableEq V] (dflt : V) (t : Option V) (v : V)
    (μ : Type) (m : μ) (st : OneofState μ (Option V)) :
    wrapperParse dflt t v = wrapperMerge dflt t (some v) ∧
    wrapperParse dflt t v = (if t = none ∨ v ≠ dflt then some v else t) ∧
    wrapperOneofParse m st v = { slot := some v, ocase := some m } := by
  refine ⟨rfl, rfl, rfl⟩

/-- C6: parsing one wire occurrence of a singular non-oneof message field
materializes the target when absent, decodes exactly the region delimited
by the length prefix (the pushed read limit), merges it into the instance
and resumes after the region; two successive occurrences therefore
accumulate (`[1]` then `[2]` yields `[1, 2]`) instead of overwriting. -/
theorem messageField_parse_spec :
    (∀ (t : Option PMsg) (len : Nat) (rest : List Nat), len ≤ rest.length →
      messageFieldParse t (varintEncode len ++ rest) =
        match PMsg.mergeFromWire (t.getD PMsg.new) (rest.take len) with
        | none => none
        | some m1 => some (some m1, rest.drop len)) ∧
    messageFieldParse none [2, 8, 1] = some (some ⟨[1]⟩, []) ∧
    messageFieldParse (some ⟨[1]⟩) [2, 8, 2] = some (some ⟨[1, 2]⟩, []) := by
  refine ⟨?_, by decide, by decide⟩
  intro t len rest h
  simp [messageFieldParse, readVarint_encode, h]

/-- C6 witness: the bounded-region equation applied at a concrete
occurrence (length 2, region `08 01`). -/
theorem messageField_parse_spec_witness :
    messageFieldParse (some PMsg.new) (varintEncode 2 ++ [8, 1]) =
      match PMsg.mergeFromWire ((some PMsg.new).getD PMsg.new) (([8, 1] : List Nat).take 2) with
      | none => none
      | some m1 => some (some m1, ([8, 1] : List Nat).drop 2) :=
  messageField_parse_spec.1 (some PMsg.new) 2 [8, 1] (by decide)

/-- C7: parsing a wire occurrence of a message oneof member first captures
the currently-active value of this same member (exactly when the
discriminant already names it) into a fresh builder, merges the decoded
region into that builder, and installs it with the discriminant set to
this member; a sibling's previous value is discarded (the builder starts
fresh), as the two concrete runs show. -/
theorem messageOneof_parse_spec :
    (∀ (μ : Type) [DecidableEq μ] (m : μ) (st : OneofState μ (Option PMsg))
        (len : Nat) (rest : List Nat), len ≤ rest.length →
      messageOneofParse m st (varintEncode len ++ rest) =
        match PMsg.mergeFromWire
            (if st.ocase = some m then PMsg.mergeMsg PMsg.new (st.slot.getD PMsg.new)
             else PMsg.new) (rest.take len) with
        | none => none
        | some m1 => some (⟨some m1, some m⟩, rest.drop len)) ∧
    messageOneofParse true ⟨some ⟨[5]⟩, some true⟩ [2, 8, 7] =
      some (⟨some ⟨[5, 7]⟩, some true⟩, []) ∧
    messageOneofParse true ⟨some ⟨[5]⟩, some false⟩ [2, 8, 7] =
      some (⟨some ⟨[7]⟩, some true⟩, []) := by
  refine ⟨?_, by decide, by decide⟩
  intro μ _ m st len rest h
  simp [messageOneofParse, readVarint_encode, h, oneofSetRef]

/-- C7 witness: the capture-and-merge equation applied at a concrete state
whose discriminant already names the decoded member. -/
theorem messageOneof_parse_spec_witness :
    messageOneofParse true (⟨some ⟨[5]⟩, some true⟩ : OneofState Bool (Option PMsg))
        (varintEncode 2 ++ [8, 7]) =
      match PMsg.mergeFromWire
          (if (⟨some ⟨[5]⟩, some true⟩ : OneofState Bool (Option PMsg)).ocase = some true then
            PMsg.mergeMsg PMsg.new
              ((⟨some ⟨[5]⟩, some true⟩ : OneofState Bool (Option PMsg)).slot.getD PMsg.new)
           else PMsg.new) (([8, 7] : List Nat).take 2) with
      | none => none
      | some m1 => some (⟨some m1, some true⟩, ([8, 7] : List Nat).drop 2) :=
  messageOneof_parse_spec.1 Bool true ⟨some ⟨[5]⟩, some true⟩ 2 [8, 7] (by decide)

/-- C8: oneof exclusivity — after setting member `B` of a group previously
holding member `A`, the discriminant names `B`, reading `A` yields `A`'s
default, and reading `B` yields the stored value; at most one member is
exposed at a time. -/
theorem primitiveOneof_exclusivity (μ σ : Type) [DecidableEq μ] (dflt : μ → σ)
    (A B : μ) (v : σ) (st : OneofState μ σ) (h : A ≠ B) :
    oneofGetPrim dflt A (oneofSetPrim B v st) = dflt A ∧
    (oneofSetPrim B v st).ocase = some B ∧
    oneofGetPrim dflt B (oneofSetPrim B v st) = v := by
  have hne : ¬ ((oneofSetPrim B v st).ocase = some A) := by
    simp [oneofSetPrim]
    exact fun hBA => h hBA.symm
  refine ⟨by simp [oneofGetPrim, hne], rfl, by simp [oneofGetPrim, oneofSetPrim]⟩

/-- C8 witness: the exclusivity facts at a concrete two-member group
(`μ = Bool`), member `false` previously active, member `true` set to 7. -/
theorem primitiveOneof_exclusivity_witness :
    oneofGetPrim (fun _ => (0 : Nat)) false (oneofSetPrim true 7 ⟨3, some false⟩) = 0 ∧
    (oneofSetPrim true 7 (⟨3, some false⟩ : OneofState Bool Nat)).ocase = some true ∧
    oneofGetPrim (fun _ => (0 : Nat)) true (oneofSetPrim true 7 ⟨3, some false⟩) = 7 :=
  primitiveOneof_exclusivity Bool Nat (fun _ => 0) false true 7 ⟨3, some false⟩ (by decide)

/-- C9: for a singular non-oneof string/bytes field, presence is
"non-empty" for both serialization and size (the empty value contributes
zero bytes and zero size), the generated setter rejects a null value and
stores any non-null value as is, and the emitted bytes and computed size
stay in lock-step for every value. -/
theorem stringField_presence :
    (∀ tagBytes : List Nat, stringFieldSerialize tagBytes [] = []) ∧
    (∀ tagSize : Nat, stringFieldSize tagSize [] = 0) ∧
    stringFieldSet none = Except.error "value" ∧
    (∀ s : List Nat, stringFieldSet (some s) = Except.ok s) ∧
    (∀ tagBytes s : List Nat,
      (stringFieldSerialize tagBytes s).length = stringFieldSize tagBytes.length s) := by
  refine ⟨fun tagBytes => by simp [stringFieldSerialize],
    fun tagSize => by simp [stringFieldSize], rfl, fun s => rfl,
    stringFieldSerialize_length⟩

/-- C10: the generated setter of a message-typed or wrapper-typed oneof
member stores the assigned reference and resets the discriminant to `None`
when the value is null (clearing the whole group) and to this member
otherwise — unlike the primitive oneof setter, which marks the member
active unconditionally. -/
theorem refOneof_setter_null_clears :
    (∀ (μ α : Type) (m : μ) (st : OneofState μ (Option α)),
      oneofSetRef m none st = ⟨none, none⟩) ∧
    (∀ (μ α : Type) (m : μ) (a : α) (st : OneofState μ (Option α)),
      oneofSetRef m (some a) st = ⟨some a, some m⟩) ∧
    (∀ (μ σ : Type) (m : μ) (v : σ) (st : OneofState μ σ),
      oneofSetPrim m v st = ⟨v, some m⟩) := by
  refine ⟨fun μ α m st => rfl, fun μ α m a st => rfl, fun μ σ m v st => rfl⟩
